import Mathlib

/-!
# output-example.c : a shallow embedding

The development covers the three self-contained pieces of `output-example.c`:

* `str_end_with` (the suffix matcher used by `add_video_stream`), run on a
  flat memory in which its two strings lie,
* the pixel-fill loops of `create_video_frame` (the pattern generator),
* the send / drain / write loop of `create_video_frame` (the session driver),
  run against an arbitrary encoder / muxer collaborator.
-/

namespace OutputExample

/-! ## C strings in memory -/

/-- A C string is given by the bytes that precede its NUL terminator. -/
abbrev CStr := List Nat

/-- The bytes before the terminator are all different from NUL. -/
def NoNul (s : CStr) : Prop := ∀ c ∈ s, c ≠ 0

instance (s : CStr) : Decidable (NoNul s) := by
  unfold NoNul; infer_instance

/-- The bytes of a string literal (without the terminator). -/
def cstr (lit : String) : CStr := lit.toList.map Char.toNat

/-- The readable memory: the bytes of one mapped region, by address.  An
address from `length` on is not mapped, and reading it is a fault. -/
abbrev Mem := List Nat

/-- Strings laid out one after the other, each followed by its terminator (as
the strings of `argv` are). -/
def layout : List CStr → Mem
  | [] => []
  | b :: rest => b ++ 0 :: layout rest

/-- The C string with bytes `b` lies at address `p`: its bytes, none of them
NUL, and then its terminator. -/
def CStrAt (mem : Mem) (p : Nat) (b : CStr) : Prop :=
  NoNul b ∧ (b ++ [0]) <+: mem.drop p

instance (mem : Mem) (p : Nat) (b : CStr) : Decidable (CStrAt mem p b) := by
  unfold CStrAt; infer_instance

/-- The character at index `i` of a C string: a byte of the string, and NUL at
the terminator. -/
def charAt (b : CStr) (i : Nat) : Nat := b.getD i 0

/-- What a run of `str_end_with` ends in. -/
inductive StrOutcome where
  /-- The function executed `return v`. -/
  | returned (v : Int)
  /-- The read of `*s` at address `addr` was outside the mapped memory. -/
  | readFaultS (addr : Nat)
  /-- The read of `*t` at address `addr` was outside the mapped memory. -/
  | readFaultT (addr : Nat)
  /-- The step budget of the model ran out. -/
  | outOfFuel
  deriving DecidableEq, Repr

/-- The two nested loops of `str_end_with`, as one step function over the
memory.  `s`, `t` and `init` are the addresses the three pointers hold; a read
goes to whatever byte the memory has at the address, also when the pointer has
left its string.  With `inner = false` control is at the test of `while (*s)`,
with `inner = true` at the test of `while (*s == *t)`. -/
def str_end_with_loop (mem : Mem) (init : Nat) : Nat → Bool → Nat → Nat → StrOutcome
  | 0, _, _, _ => StrOutcome.outOfFuel
  | fuel + 1, false, s, t =>
    match mem[s]? with
    | none => StrOutcome.readFaultS s
    | some c =>
      if c ≠ 0 then str_end_with_loop mem init fuel true s t
      else StrOutcome.returned 0
  | fuel + 1, true, s, t =>
    match mem[s]? with
    | none => StrOutcome.readFaultS s
    | some a =>
      match mem[t]? with
      | none => StrOutcome.readFaultT t
      | some b =>
        if a = b then
          if a = 0 then StrOutcome.returned 1
          else str_end_with_loop mem init fuel true (s + 1) (t + 1)
        else str_end_with_loop mem init fuel false (s + 1) init

/-- The function `str_end_with(s, t)` called with the addresses `s` and `t`.
Every step but the entry into the inner loop advances `s`, so two steps for
each mapped byte from `s` on, and four more, are enough (see
`str_end_with_fuel`). -/
def str_end_with (mem : Mem) (s t : Nat) : StrOutcome :=
  str_end_with_loop mem t (2 * (mem.length - s) + 4) false s t

/-- The C truth value of an outcome: `str_end_with` returned a nonzero `int`. -/
def StrOutcome.nonzero : StrOutcome → Bool
  | StrOutcome.returned v => decide (v ≠ 0)
  | _ => false

/-- A failed partial match of `t` in `s`: at position `i` of `s` the first `k`
characters of `t` are found (`k ≥ 1`), and the characters that come next in
`s` and in `t` differ (a terminator counts as a character). -/
def FailedPartialMatch (s t : CStr) (i k : Nat) : Prop :=
  1 ≤ k ∧ i + k ≤ s.length ∧ k ≤ t.length ∧
  (∀ j, j < k → charAt s (i + j) = charAt t j) ∧ charAt s (i + k) ≠ charAt t k

instance (s t : CStr) (i k : Nat) : Decidable (FailedPartialMatch s t i k) := by
  unfold FailedPartialMatch; infer_instance

/-- Where a scan of `s` for the suffix `t` has to stop: at the start of the
trailing occurrence of `t` when `t` is a trailing substring of `s`, and at the
terminator of `s` when it is not. -/
def scanEnd (s t : CStr) : Nat :=
  if t <:+ s then s.length - t.length else s.length

/-- The positions of `s` at which the scan tries to match `t`: position 0, and
after a try at position `i` that found the first `k` characters of `t` (`k` may
be 0) and then two characters that differ, position `i + k + 1`. -/
inductive Tried (s t : CStr) : Nat → Prop where
  | start : Tried s t 0
  | next (i k : Nat) : Tried s t i → i < s.length → i + k ≤ s.length → k ≤ t.length →
      (∀ j, j < k → charAt s (i + j) = charAt t j) → charAt s (i + k) ≠ charAt t k →
      Tried s t (i + k + 1)

/-- No failed partial match that the scan tries before the scan end reaches the
scan end: none runs into the trailing occurrence of `t`, and none runs onto the
terminator of `s`. -/
def CleanScan (s t : CStr) : Prop :=
  ∀ i k, Tried s t i → i < scanEnd s t → FailedPartialMatch s t i k → i + k < scanEnd s t

/-- No failed partial match at any position before the scan end reaches the
scan end (a condition on `s` and `t` alone, which makes the scan clean). -/
def CleanEverywhere (s t : CStr) : Prop :=
  ∀ i, i < scanEnd s t → ∀ k, k ≤ t.length →
    FailedPartialMatch s t i k → i + k < scanEnd s t

instance (s t : CStr) : Decidable (CleanEverywhere s t) := by
  unfold CleanEverywhere; infer_instance

/-! ## Frames and the pattern generator -/

/-- The conversion of an `int` value to the `uint8_t` sample it is stored in. -/
def toSample (v : Int) : Nat := (v % 256).toNat

/-- The value of a 32-bit two's-complement `int` that wraps around. -/
def wrapInt (v : Int) : Int := (v + 2147483648) % 4294967296 - 2147483648

/-- One plane of a frame: the bytes reached from `data[i]`, by offset. -/
abbrev Plane := Int → Nat

/-- The assignment `plane[i] = v` of an `int` value to a byte of a plane. -/
def Plane.store (m : Plane) (i : Int) (v : Int) : Plane :=
  fun j => if j = i then toSample v else m j

/-- The fields of `AVFrame` that `output-example.c` uses.  The three planes are
separate memory regions.  Offsets and sample values are `int` expressions of the
source, computed in the integers (an `int` expression that overflows is
undefined in C); a sample keeps its value modulo 256 when it is stored
(`toSample`), also when the `int` arithmetic wraps (`samples_wrapInt`). -/
structure AVFrame where
  data0 : Plane
  data1 : Plane
  data2 : Plane
  linesize0 : Int
  linesize1 : Int
  linesize2 : Int
  pts : Int

/-- The loop `for (int i = 0; i < n; i++) body`, for a count `n`. -/
def forNat {α : Type} (n : Nat) (body : Int → α → α) (init : α) : α :=
  (List.range n).foldl (fun a i => body (i : Int) a) init

/-- The loop `for (int i = 0; i < bound; i++) body`, for an `int` bound: it runs
`bound` times, and not at all when `bound ≤ 0`. -/
def forInt {α : Type} (bound : Int) (body : Int → α → α) (init : α) : α :=
  forNat bound.toNat body init

/-- The loop over the luma plane (`/* Y */`) in `create_video_frame`. -/
def fill_luma (width height frame_count : Int) (fr : AVFrame) : AVFrame :=
  forInt height (fun y fr =>
    forInt width (fun x fr =>
      { fr with data0 := fr.data0.store (y * fr.linesize0 + x) (x + y + frame_count * 3) })
      fr) fr

/-- The loop over the two chroma planes (`/* Cb and Cr */`) in
`create_video_frame`; `/` on `int` truncates. -/
def fill_chroma (width height frame_count : Int) (fr : AVFrame) : AVFrame :=
  forInt (Int.tdiv height 2) (fun y fr =>
    forInt (Int.tdiv width 2) (fun x fr =>
      let fr1 : AVFrame :=
        { fr with data1 := fr.data1.store (y * fr.linesize1 + x) (128 + y + frame_count * 2) }
      { fr1 with data2 := fr1.data2.store (y * fr1.linesize2 + x) (64 + x + frame_count * 5) })
      fr) fr

/-- The fill loops of `create_video_frame` (`/* prepare a dummy image */`). -/
def fill_frame (width height frame_count : Int) (fr : AVFrame) : AVFrame :=
  fill_chroma width height frame_count (fill_luma width height frame_count fr)

/-- What one plane sees of a double loop that stores `val x y` at offset
`y * linesize + x` (used to state what the fill loops do to each plane). -/
def fillPlane (linesize : Int) (val : Int → Int → Int) (rows cols : Nat) (m : Plane) : Plane :=
  forNat rows (fun y m => forNat cols (fun x m => m.store (y * linesize + x) (val x y)) m) m

/-- A frame with all samples 0 and the given line sizes. -/
def blankFrame (l0 l1 l2 : Int) : AVFrame :=
  { data0 := fun _ => 0, data1 := fun _ => 0, data2 := fun _ => 0,
    linesize0 := l0, linesize1 := l1, linesize2 := l2, pts := 0 }

/-! ## The encoder / muxer collaborator and the session driver -/

/-- The part of libavcodec / libavformat that `create_video_frame` and
`write_video_frame` call.  `σ` is the state of the library (encoder, muxer,
output file), `π` stands for the contents of an `AVPacket`.  The two error
constants come from the library headers. -/
structure AVLib (σ π : Type) where
  /-- The value of `AVERROR(EAGAIN)`. -/
  AVERROR_EAGAIN : Int
  /-- The value of `AVERROR_EOF`. -/
  AVERROR_EOF : Int
  /-- The packet left by `av_init_packet(&pkt); pkt.data = NULL; pkt.size = 0;`. -/
  av_init_packet : π
  av_frame_make_writable : σ → AVFrame → Int × AVFrame × σ
  avcodec_send_frame : σ → AVFrame → Int × σ
  avcodec_receive_packet : σ → π → Int × π × σ
  /-- The call `av_packet_rescale_ts(pkt, video_st->time_base, video_st->time_base)`. -/
  av_packet_rescale_ts : π → π
  /-- The assignment `pkt->stream_index = index`. -/
  set_stream_index : π → Int → π
  av_interleaved_write_frame : σ → π → Int × π × σ
  av_packet_unref : π → π

/-- The calls across the boundary of `create_video_frame`, as they happen. -/
inductive Event (π : Type) where
  /-- The call `av_frame_make_writable` returned `ret`. -/
  | writable (ret : Int)
  /-- The frame was sent with presentation timestamp `pts`; the call returned `ret`. -/
  | send (pts : Int) (ret : Int)
  /-- The call `avcodec_receive_packet` returned `ret` and left `pkt` in the packet. -/
  | receive (ret : Int) (pkt : π)
  /-- The packet `pkt` was handed to `write_video_frame`, which returned `ret`. -/
  | write (pkt : π) (ret : Int)

/-- The global variables that `create_video_frame` reads and writes, with the
state of the library and the record of the calls made so far. -/
structure Globals (σ π : Type) where
  lib : σ
  video_frame : AVFrame
  frame_count : Int
  /-- The field `codec_context->width`. -/
  width : Int
  /-- The field `codec_context->height`. -/
  height : Int
  /-- The field `video_st->index`. -/
  stream_index : Int
  log : List (Event π)

/-- How a call of `create_video_frame` ends, and the globals it leaves. -/
inductive Outcome (α : Type) where
  /-- The function executed `return v`. -/
  | returned (v : Int) (g : α)
  /-- The function called `exit(code)`. -/
  | exited (code : Int) (g : α)
  /-- The drain loop was still running when the step budget ran out. -/
  | outOfFuel (g : α)

/-- The globals at the end of a run. -/
def Outcome.state {α : Type} : Outcome α → α
  | Outcome.returned _ g => g
  | Outcome.exited _ g => g
  | Outcome.outOfFuel g => g

/-- The value returned, when the run ended in `return`. -/
def Outcome.retval {α : Type} : Outcome α → Option Int
  | Outcome.returned v _ => some v
  | _ => none

/-- The function `write_video_frame(pkt)`: the value returned, the packet as it
is left, and the globals. -/
def write_video_frame {σ π : Type} (L : AVLib σ π) (pkt : π) (g : Globals σ π) :
    Int × π × Globals σ π :=
  let pkt1 := L.set_stream_index (L.av_packet_rescale_ts pkt) g.stream_index
  let r := L.av_interleaved_write_frame g.lib pkt1
  (r.1, r.2.1, { g with lib := r.2.2, log := g.log ++ [Event.write pkt r.1] })

/-- The loop `while (ret >= 0) { ... }` of `create_video_frame` together with
the two statements `frame_count++; return 1;` that follow it.  `ret` and `pkt`
are the local variables; one unit of fuel is one evaluation of the loop test. -/
def drain {σ π : Type} (L : AVLib σ π) : Nat → Int → π → Globals σ π → Outcome (Globals σ π)
  | 0, _, _, g => Outcome.outOfFuel g
  | fuel + 1, ret, pkt, g =>
    if ret ≥ 0 then
      let r := L.avcodec_receive_packet g.lib pkt
      let g1 : Globals σ π := { g with lib := r.2.2, log := g.log ++ [Event.receive r.1 r.2.1] }
      if r.1 = L.AVERROR_EAGAIN ∨ r.1 = L.AVERROR_EOF then
        Outcome.returned (if r.1 = L.AVERROR_EAGAIN then 0 else 1) g1
      else if r.1 < 0 then
        Outcome.returned 0 g1
      else
        let w := write_video_frame L r.2.1 g1
        if w.1 < 0 then
          Outcome.returned 0 w.2.2
        else
          drain L fuel w.1 (L.av_packet_unref w.2.1) w.2.2
    else
      Outcome.returned 1 { g with frame_count := g.frame_count + 1 }

/-- The function `create_video_frame()`. -/
def create_video_frame {σ π : Type} (L : AVLib σ π) (fuel : Nat) (g : Globals σ π) :
    Outcome (Globals σ π) :=
  let pkt := L.av_init_packet
  let r := L.av_frame_make_writable g.lib g.video_frame
  let g1 : Globals σ π :=
    { g with lib := r.2.2, video_frame := r.2.1, log := g.log ++ [Event.writable r.1] }
  if r.1 < 0 then
    Outcome.exited 1 g1
  else
    let fr := fill_frame g1.width g1.height g1.frame_count g1.video_frame
    let g2 : Globals σ π := { g1 with video_frame := { fr with pts := g1.frame_count } }
    let r := L.avcodec_send_frame g2.lib g2.video_frame
    let g3 : Globals σ π :=
      { g2 with lib := r.2, log := g2.log ++ [Event.send g2.video_frame.pts r.1] }
    if r.1 < 0 then
      Outcome.returned 0 g3
    else
      drain L fuel r.1 pkt g3

/-- The last statements of `create_video_file` on its successful path
(`video_frame` is not `NULL` there): `video_frame->pts = 0; frame_count = 0;`. -/
def create_video_file_end {σ π : Type} (g : Globals σ π) : Globals σ π :=
  { g with video_frame := { g.video_frame with pts := 0 }, frame_count := 0 }

/-- The frame loop of `main`: up to `n` calls of `create_video_frame`, stopping
after the first call that does not return nonzero (`exit(0)` in `main`).  The
result lists, call by call, the value returned (if the call returned) and the
presentation timestamp the call left in `video_frame`. -/
def frame_loop {σ π : Type} (L : AVLib σ π) (fuel : Nat) :
    Nat → Globals σ π → List (Option Int × Int)
  | 0, _ => []
  | n + 1, g =>
    match create_video_frame L fuel g with
    | Outcome.returned v g1 =>
      (some v, g1.video_frame.pts) :: (if v ≠ 0 then frame_loop L fuel n g1 else [])
    | Outcome.exited _ g1 => [(none, g1.video_frame.pts)]
    | Outcome.outOfFuel g1 => [(none, g1.video_frame.pts)]

/-- The packets that the successful calls of `avcodec_receive_packet` returned. -/
def receivedPackets {π : Type} : List (Event π) → List π
  | [] => []
  | Event.receive ret pkt :: rest =>
    if ret ≥ 0 then pkt :: receivedPackets rest else receivedPackets rest
  | _ :: rest => receivedPackets rest

/-- The packets that were handed to `write_video_frame`. -/
def writtenPackets {π : Type} : List (Event π) → List π
  | [] => []
  | Event.write pkt _ :: rest => pkt :: writtenPackets rest
  | _ :: rest => writtenPackets rest

/-- The presentation timestamps of the frames that were sent. -/
def sentPts {π : Type} : List (Event π) → List Int
  | [] => []
  | Event.send pts _ :: rest => pts :: sentPts rest
  | _ :: rest => sentPts rest

/-- A collaborator that answers from a script: the values `avcodec_send_frame`
returns, the value and packet each `avcodec_receive_packet` returns, and the
values `av_interleaved_write_frame` returns, call after call. -/
structure Script where
  sends : List Int
  receives : List (Int × Nat)
  writes : List Int

/-- The scripted collaborator, with the error values of a Linux build of the
library (`AVERROR(EAGAIN) = -11`, `AVERROR_EOF = -541478725`).  When a script is
used up, sending and writing succeed and receiving answers `AVERROR(EAGAIN)`. -/
def scripted : AVLib Script Nat where
  AVERROR_EAGAIN := -11
  AVERROR_EOF := -541478725
  av_init_packet := 0
  av_frame_make_writable := fun st fr => (0, fr, st)
  avcodec_send_frame := fun st _ => (st.sends.headD 0, { st with sends := st.sends.tail })
  avcodec_receive_packet := fun st pkt =>
    match st.receives with
    | [] => (-11, pkt, st)
    | (ret, p) :: rest => (ret, if ret ≥ 0 then p else pkt, { st with receives := rest })
  av_packet_rescale_ts := fun pkt => pkt
  set_stream_index := fun pkt _ => pkt
  av_interleaved_write_frame := fun st pkt =>
    (st.writes.headD 0, pkt, { st with writes := st.writes.tail })
  av_packet_unref := fun _ => 0

/-- The globals of a small session (4 by 2 pixels) over the scripted
collaborator, as `create_video_file` leaves them. -/
def scriptedStart (st : Script) : Globals Script Nat :=
  create_video_file_end
    { lib := st, video_frame := blankFrame 4 2 2, frame_count := 0, width := 4, height := 2,
      stream_index := 0, log := [] }

/-- The shape of the record of one call of `create_video_frame` in which the
drain is in order: every successful receive is directly followed by the write
of the very packet it returned, and nothing follows a receive that did not
succeed or a write that failed. -/
def OrderedDrain {π : Type} : List (Event π) → Prop
  | [] => True
  | Event.writable _ :: rest => OrderedDrain rest
  | Event.send _ _ :: rest => OrderedDrain rest
  | [Event.receive ret _] => ret < 0
  | Event.receive ret pkt :: Event.write pkt1 w :: rest =>
    0 ≤ ret ∧ pkt1 = pkt ∧ (w < 0 → rest = []) ∧ OrderedDrain rest
  | Event.receive _ _ :: _ => False
  | Event.write _ _ :: _ => False

/-- The answers of a collaborator, as sequences: the value the next
`avcodec_send_frame` returns, and for the calls to come, in order, the value
and packet each `avcodec_receive_packet` returns and the value each
`av_interleaved_write_frame` returns. -/
structure Answers (π : Type) where
  send : Int
  receives : Nat → Int × π
  writes : Nat → Int

/-- The collaborator that gives the answers of its state, one after the other.
A receive that succeeds leaves the packet of the answer in `pkt`. -/
def sequenced {π : Type} (eagain eof : Int) (blank : π) : AVLib (Answers π) π where
  AVERROR_EAGAIN := eagain
  AVERROR_EOF := eof
  av_init_packet := blank
  av_frame_make_writable := fun st fr => (0, fr, st)
  avcodec_send_frame := fun st _ => (st.send, st)
  avcodec_receive_packet := fun st pkt =>
    ((st.receives 0).1, (if 0 ≤ (st.receives 0).1 then (st.receives 0).2 else pkt),
      { st with receives := fun i => st.receives (i + 1) })
  av_packet_rescale_ts := fun pkt => pkt
  set_stream_index := fun pkt _ => pkt
  av_interleaved_write_frame := fun st pkt =>
    (st.writes 0, pkt, { st with writes := fun i => st.writes (i + 1) })
  av_packet_unref := fun _ => blank

/-- The packets of the first `k` answers of the encoder, in order. -/
def firstPackets {π : Type} (receives : Nat → Int × π) (k : Nat) : List π :=
  (List.range k).map (fun i => (receives i).2)

/-- A small session over the sequenced collaborator: the encoder delivers the
packets 7 and 8 and then asks for more input; every write succeeds. -/
def sequencedStart : Globals (Answers Nat) Nat :=
  create_video_file_end
    { lib :=
        { send := 0,
          receives := fun i => if i = 0 then (0, 7) else if i = 1 then (0, 8) else (-11, 0),
          writes := fun _ => 0 },
      video_frame := blankFrame 4 2 2, frame_count := 0, width := 4, height := 2,
      stream_index := 0, log := [] }

/-! # Theorems -/

/-! ## Reading C strings in memory -/

theorem charAt_of_lt {b : CStr} {i : Nat} (h : i < b.length) : charAt b i = b[i] := by
  simp [charAt, List.getD_eq_getElem?_getD, List.getElem?_eq_getElem h]

theorem charAt_of_le {b : CStr} {i : Nat} (h : b.length ≤ i) : charAt b i = 0 := by
  simp [charAt, List.getD_eq_getElem?_getD, List.getElem?_eq_none h]

theorem charAt_ne_zero {b : CStr} (hb : NoNul b) {i : Nat} (h : i < b.length) :
    charAt b i ≠ 0 := by
  rw [charAt_of_lt h]
  exact hb _ (List.getElem_mem h)

theorem charAt_eq_zero_iff {b : CStr} (hb : NoNul b) {i : Nat} :
    charAt b i = 0 ↔ b.length ≤ i := by
  constructor
  · intro h
    by_contra hlt
    exact charAt_ne_zero hb (by omega) h
  · exact charAt_of_le

theorem getElem?_eq_charAt {b : CStr} {i : Nat} (h : i < b.length) :
    b[i]? = some (charAt b i) := by
  rw [charAt_of_lt h, List.getElem?_eq_getElem h]

/-- A read inside a C string, or of its terminator, gives the character. -/
theorem read_cstr {mem : Mem} {p : Nat} {b : CStr} (h : CStrAt mem p b) {i : Nat}
    (hi : i ≤ b.length) : mem[p + i]? = some (charAt b i) := by
  obtain ⟨r, hr⟩ := h.2
  rw [← List.getElem?_drop, ← hr]
  by_cases hlt : i < b.length
  · rw [List.append_assoc, List.getElem?_append_left hlt, getElem?_eq_charAt hlt]
  · have hie : i = b.length := by omega
    subst hie
    rw [List.getElem?_append_left (by simp), List.getElem?_append_right (le_refl _),
      charAt_of_le (le_refl _)]
    simp

theorem cstr_in_mem {mem : Mem} {p : Nat} {b : CStr} (h : CStrAt mem p b) :
    p + b.length < mem.length := by
  have := read_cstr h (le_refl b.length)
  exact (List.getElem?_eq_some.mp this).1

/-- The characters of a trailing substring. -/
theorem charAt_suffix {s t : CStr} (h : t <:+ s) (j : Nat) :
    charAt s (s.length - t.length + j) = charAt t j := by
  obtain ⟨p, rfl⟩ := h
  have hp : (p ++ t).length - t.length = p.length := by simp
  rw [hp]
  unfold charAt
  rw [List.getD_eq_getElem?_getD, List.getD_eq_getElem?_getD,
    List.getElem?_append_right (by omega)]
  simp

/-- A full match that ends on the terminator of `s` is a trailing substring. -/
theorem suffix_of_match {s t : CStr} {i : Nat} (hlen : i + t.length = s.length)
    (hm : ∀ j, j < t.length → charAt s (i + j) = charAt t j) : t <:+ s := by
  have heq : t = s.drop i := by
    apply List.ext_getElem?
    intro k
    rw [List.getElem?_drop]
    by_cases hk : k < t.length
    · rw [getElem?_eq_charAt hk, getElem?_eq_charAt (by omega), hm k hk]
    · rw [List.getElem?_eq_none (by omega), List.getElem?_eq_none (by omega)]
  rw [heq]
  exact List.drop_suffix _ _

/-! ## The step budget of `str_end_with` is never exhausted -/

theorem str_end_with_loop_fuel (mem : Mem) (init : Nat) :
    ∀ (fuel : Nat) (inner : Bool) (s t : Nat),
      2 * (mem.length - s) + (if inner then 1 else 2) ≤ fuel →
      str_end_with_loop mem init fuel inner s t ≠ StrOutcome.outOfFuel := by
  intro fuel
  induction fuel with
  | zero =>
    intro inner s t h
    cases inner <;> simp at h
  | succ n ih =>
    intro inner s t h
    cases inner with
    | false =>
      simp only [str_end_with_loop]
      cases hs : mem[s]? with
      | none => simp
      | some c =>
        have hlt := (List.getElem?_eq_some.mp hs).1
        by_cases hc : c = 0
        · simp [hc]
        · simp only [ne_eq, hc, not_false_eq_true, if_true]
          apply ih
          simp at h ⊢
          omega
    | true =>
      simp only [str_end_with_loop]
      cases hs : mem[s]? with
      | none => simp
      | some a =>
        have hlt := (List.getElem?_eq_some.mp hs).1
        cases ht : mem[t]? with
        | none => simp
        | some b =>
          simp only
          by_cases hab : a = b
          · subst hab
            by_cases ha : a = 0
            · simp [ha]
            · simp only [if_true, ha, if_false]
              apply ih
              simp at h ⊢
              omega
          · simp only [hab, if_false]
            apply ih
            simp at h ⊢
            omega

/-- The model of `str_end_with` never stops for lack of steps: on every memory
and every pair of addresses it ends in a `return` or in a read fault. -/
theorem str_end_with_fuel (mem : Mem) (s t : Nat) :
    str_end_with mem s t ≠ StrOutcome.outOfFuel := by
  unfold str_end_with
  apply str_end_with_loop_fuel
  simp only [Bool.false_eq_true, if_false]
  omega

/-! ## The empty suffix -/

/-- With the empty suffix the test of the inner loop fails on every character
of `s`, and the scan ends in `return 0` on the terminator of `s`. -/
theorem str_end_with_loop_empty {mem : Mem} {sp tp : Nat} {s : CStr}
    (hs : CStrAt mem sp s) (ht : CStrAt mem tp []) :
    ∀ (n fuel i : Nat), i + n = s.length → 2 * n + 1 ≤ fuel →
      str_end_with_loop mem tp fuel false (sp + i) tp = StrOutcome.returned 0 := by
  have ht0 : mem[tp]? = some 0 := by
    have := read_cstr ht (le_refl _)
    simpa [charAt] using this
  intro n
  induction n with
  | zero =>
    intro fuel i hlen hf
    obtain ⟨f, rfl⟩ : ∃ f, fuel = f + 1 := ⟨fuel - 1, by omega⟩
    have h1 : mem[sp + i]? = some 0 := by
      rw [read_cstr hs (by omega), charAt_of_le (by omega)]
    simp [str_end_with_loop, h1]
  | succ n ih =>
    intro fuel i hlen hf
    obtain ⟨f, rfl⟩ : ∃ f, fuel = f + 1 + 1 := ⟨fuel - 2, by omega⟩
    have h1 : mem[sp + i]? = some (charAt s i) := read_cstr hs (by omega)
    have ha : charAt s i ≠ 0 := charAt_ne_zero hs.1 (by omega)
    simp only [str_end_with_loop, h1, ht0, ne_eq, ha, not_false_eq_true, if_true, if_false]
    have := ih f (i + 1) (by omega) (by omega)
    rw [← Nat.add_assoc] at this
    exact this

/-! ## Scans that no failed partial match disturbs -/

/-- The result the claim asks for: 1 when `t` is a trailing substring of `s`,
0 when it is not. -/
theorem str_end_with_loop_clean {mem : Mem} {sp tp : Nat} {s t : CStr}
    (hs : CStrAt mem sp s) (ht : CStrAt mem tp t) (hne : t ≠ []) (hclean : CleanScan s t) :
    ∀ (fuel : Nat) (inner : Bool) (i j : Nat),
      Tried s t i → i ≤ scanEnd s t →
      (if inner then
        i < s.length ∧ i + j ≤ s.length ∧ j ≤ t.length ∧
          (∀ l, l < j → charAt s (i + l) = charAt t l) ∧
          2 * (s.length - (i + j)) + 1 ≤ fuel
       else j = 0 ∧ 2 * (s.length - i) + 2 ≤ fuel) →
      str_end_with_loop mem tp fuel inner (sp + i + j) (tp + j) =
        StrOutcome.returned (if t <:+ s then 1 else 0) := by
  have htpos : 0 < t.length := List.length_pos.mpr hne
  have hend_le : scanEnd s t ≤ s.length := by
    unfold scanEnd; split_ifs <;> omega
  intro fuel
  induction fuel with
  | zero =>
    intro inner i j _ _ h
    cases inner <;> simp at h
  | succ n ih =>
    intro inner i j htried hie h
    cases inner with
    | false =>
      simp only [Bool.false_eq_true, if_false] at h
      obtain ⟨hj, hf⟩ := h
      subst hj
      simp only [Nat.add_zero, str_end_with_loop]
      rw [read_cstr hs (by omega)]
      simp only
      by_cases hc : charAt s i = 0
      · have hil : s.length ≤ i := (charAt_eq_zero_iff hs.1).mp hc
        have hnot : ¬ t <:+ s := by
          intro hsuf
          have hl := hsuf.length_le
          have : scanEnd s t = s.length - t.length := by simp [scanEnd, hsuf]
          omega
        simp [hc, hnot]
      · simp only [ne_eq, hc, not_false_eq_true, if_true]
        have hil : i < s.length := by
          by_contra hge
          exact hc (charAt_of_le (by omega))
        have := ih true i 0 htried hie (by
          simp only [if_true]
          exact ⟨hil, by omega, Nat.zero_le _, fun l hl => absurd hl (Nat.not_lt_zero _),
            by omega⟩)
        simpa using this
    | true =>
      simp only [if_true] at h
      obtain ⟨hil, hij, hjt, hm, hf⟩ := h
      simp only [str_end_with_loop]
      rw [Nat.add_assoc, read_cstr hs hij, read_cstr ht hjt]
      simp only
      by_cases hab : charAt s (i + j) = charAt t j
      · by_cases ha : charAt s (i + j) = 0
        · have hsl : s.length ≤ i + j := (charAt_eq_zero_iff hs.1).mp ha
          have htl : t.length ≤ j := (charAt_eq_zero_iff ht.1).mp (hab ▸ ha)
          have hj : j = t.length := by omega
          subst hj
          have hsuf : t <:+ s := suffix_of_match (by omega) hm
          rw [if_pos hab, if_pos ha, if_pos hsuf]
        · have hlt : i + j < s.length := by
            by_contra hge
            exact ha (charAt_of_le (by omega))
          have hlt2 : j < t.length := by
            by_contra hge
            exact ha (hab ▸ charAt_of_le (by omega))
          simp only [hab, if_true]
          rw [← hab]
          simp only [ha, if_false]
          have := ih true i (j + 1) htried hie (by
            simp only [if_true]
            refine ⟨hil, by omega, by omega, ?_, by omega⟩
            intro l hl
            by_cases hlj : l < j
            · exact hm l hlj
            · have : l = j := by omega
              subst this
              exact hab)
          simpa [Nat.add_assoc] using this
      · simp only [hab, if_false]
        have hlt_end : i < scanEnd s t := by
          rcases Nat.lt_or_ge i (scanEnd s t) with h1 | h1
          · exact h1
          · exfalso
            have hie' : i = scanEnd s t := by omega
            by_cases hsuf : t <:+ s
            · have he : scanEnd s t = s.length - t.length := by simp [scanEnd, hsuf]
              have := charAt_suffix hsuf j
              rw [← he, ← hie'] at this
              exact hab this
            · have he : scanEnd s t = s.length := by simp [scanEnd, hsuf]
              omega
        have hnext : i + j + 1 ≤ scanEnd s t := by
          by_cases hj0 : j = 0
          · omega
          · have := hclean i j htried hlt_end ⟨by omega, hij, hjt, hm, hab⟩
            omega
        have := ih false (i + j + 1) 0 (Tried.next i j htried hil hij hjt hm hab) hnext (by
          simp only [Bool.false_eq_true, if_false]
          exact ⟨trivial, by omega⟩)
        simpa [Nat.add_assoc] using this

/-! ## The suffix matcher: results -/

theorem cleanScan_self (t : CStr) : CleanScan t t := by
  intro i k _ hi
  have : scanEnd t t = 0 := by simp [scanEnd]
  omega

theorem cleanScan_of_everywhere {s t : CStr} (h : CleanEverywhere s t) : CleanScan s t :=
  fun i k _ hi hf => h i hi k hf.2.2.1 hf

/-- C2, as stated, fails: the empty string is a trailing substring of
`"video.gif"`, and `str_end_with("video.gif", "")` returns 0. -/
theorem str_end_with_iff_suffix_fails :
    CStrAt (layout [cstr "", cstr "video.gif"]) 1 (cstr "video.gif") ∧
    CStrAt (layout [cstr "", cstr "video.gif"]) 0 (cstr "") ∧
    ¬ ((str_end_with (layout [cstr "", cstr "video.gif"]) 1 0).nonzero = true ↔
        cstr "" <:+ cstr "video.gif") := by
  decide

/-- C2 (amended): for C strings `s` and `t` anywhere in memory,
`str_end_with(s, t)` returns 0 when `t` is empty.  When `t` is not empty, let
the scan end be the start of the trailing occurrence of `t` in `s`, or the
terminator of `s` when there is none; the scan tries position 0 of `s` and,
after a try at `i` that matched `k` characters and then failed, position
`i + k + 1`.  If no failed partial match that the scan tries before the scan
end reaches the scan end, `str_end_with(s, t)` returns 1 if `t` is a trailing
contiguous substring of `s` and 0 if it is not; in particular it returns 1
when `s = t`. -/
theorem str_end_with_spec (mem : Mem) (sp tp : Nat) (s t : CStr)
    (hs : CStrAt mem sp s) (ht : CStrAt mem tp t) :
    (t = [] → str_end_with mem sp tp = StrOutcome.returned 0) ∧
    (t ≠ [] → CleanScan s t →
      str_end_with mem sp tp = StrOutcome.returned (if t <:+ s then 1 else 0)) ∧
    (t ≠ [] → s = t → str_end_with mem sp tp = StrOutcome.returned 1) := by
  have hmem := cstr_in_mem hs
  have clean : t ≠ [] → CleanScan s t →
      str_end_with mem sp tp = StrOutcome.returned (if t <:+ s then 1 else 0) := by
    intro hne hclean
    have := str_end_with_loop_clean hs ht hne hclean (2 * (mem.length - sp) + 4) false 0 0
      Tried.start (Nat.zero_le _) (by
        simp only [Bool.false_eq_true, if_false]
        exact ⟨trivial, by omega⟩)
    simpa [str_end_with] using this
  refine ⟨?_, clean, ?_⟩
  · intro hnil
    subst hnil
    have := str_end_with_loop_empty hs ht s.length (2 * (mem.length - sp) + 4) 0
      (by omega) (by omega)
    simpa [str_end_with] using this
  · intro hne hst
    subst hst
    have := clean hne (cleanScan_self s)
    simpa using this

theorem str_end_with_spec_witness :
    CStrAt (layout [cstr "gif", cstr "big.gif"]) 4 (cstr "big.gif") ∧
    CStrAt (layout [cstr "gif", cstr "big.gif"]) 0 (cstr "gif") ∧
    cstr "gif" ≠ [] ∧ FailedPartialMatch (cstr "big.gif") (cstr "gif") 2 1 ∧
    CleanScan (cstr "big.gif") (cstr "gif") ∧
    str_end_with (layout [cstr "gif", cstr "big.gif"]) 4 0 =
      StrOutcome.returned (if cstr "gif" <:+ cstr "big.gif" then 1 else 0) ∧
    cstr "gif" <:+ cstr "big.gif" :=
  ⟨by decide, by decide, by decide, by decide, cleanScan_of_everywhere (by decide),
    (str_end_with_spec (layout [cstr "gif", cstr "big.gif"]) 4 0 (cstr "big.gif") (cstr "gif")
      (by decide) (by decide)).2.1 (by decide) (cleanScan_of_everywhere (by decide)),
    by decide⟩

/-- The suffix matcher is right on every input on which no failed partial
match, tried by the scan or not, reaches the scan end. -/
theorem str_end_with_clean_everywhere (mem : Mem) (sp tp : Nat) (s t : CStr)
    (hs : CStrAt mem sp s) (ht : CStrAt mem tp t) (hne : t ≠ [])
    (hclean : CleanEverywhere s t) :
    str_end_with mem sp tp = StrOutcome.returned (if t <:+ s then 1 else 0) := by
  have hmem := cstr_in_mem hs
  have := str_end_with_loop_clean hs ht hne (cleanScan_of_everywhere hclean)
    (2 * (mem.length - sp) + 4) false 0 0 Tried.start (Nat.zero_le _) (by
      simp only [Bool.false_eq_true, if_false]
      exact ⟨trivial, by omega⟩)
  simpa [str_end_with] using this

/-- File names whose scan for the suffix `"gif"` is clean, with the value
`str_end_with` returns: a failed partial match of `"g"` precedes the extension
in `"big.gif"` and `"image.gif"`, and one of `"gif"` starts `"gif.mp4"`.  In
`"agg"` the last `g` starts a partial match that runs onto the terminator, but
the scan does not try it. -/
theorem str_end_with_examples :
    (CleanEverywhere (cstr "video.gif") (cstr "gif") ∧
      str_end_with (layout [cstr "gif", cstr "video.gif"]) 4 0 = StrOutcome.returned 1) ∧
    (CleanEverywhere (cstr "big.gif") (cstr "gif") ∧
      str_end_with (layout [cstr "gif", cstr "big.gif"]) 4 0 = StrOutcome.returned 1) ∧
    (CleanEverywhere (cstr "image.gif") (cstr "gif") ∧
      str_end_with (layout [cstr "gif", cstr "image.gif"]) 4 0 = StrOutcome.returned 1) ∧
    (CleanEverywhere (cstr "video.mp4") (cstr "gif") ∧
      str_end_with (layout [cstr "gif", cstr "video.mp4"]) 4 0 = StrOutcome.returned 0) ∧
    (CleanEverywhere (cstr "gif.mp4") (cstr "gif") ∧
      str_end_with (layout [cstr "gif", cstr "gif.mp4"]) 4 0 = StrOutcome.returned 0) ∧
    (¬ CleanEverywhere (cstr "agg") (cstr "gif") ∧ CleanScan (cstr "agg") (cstr "gif") ∧
      str_end_with (layout [cstr "gif", cstr "agg"]) 4 0 = StrOutcome.returned 0) := by
  refine ⟨by decide, by decide, by decide, by decide, by decide, by decide, ?_, by decide⟩
  have h2 : ¬ Tried (cstr "agg") (cstr "gif") 2 := by
    intro h
    generalize hn : (2 : Nat) = n at h
    cases h with
    | start => omega
    | next i k _ _ _ _ hm hdiff =>
      have hik : (i = 0 ∧ k = 1) ∨ (i = 1 ∧ k = 0) := by omega
      rcases hik with ⟨rfl, rfl⟩ | ⟨rfl, rfl⟩
      · have := hm 0 (by omega)
        revert this
        decide
      · revert hdiff
        decide
  intro i k htr hi hf
  have he : scanEnd (cstr "agg") (cstr "gif") = 3 := by decide
  have hk : k ≤ 3 := hf.2.2.1
  rw [he] at hi ⊢
  interval_cases i <;> interval_cases k <;>
    first
      | omega
      | exact absurd htr h2
      | (exfalso; revert hf; decide)

/-- C5, as stated, fails: `str_end_with("", "")` does not return nonzero. -/
theorem str_end_with_empty_empty :
    CStrAt (layout [cstr "", cstr ""]) 0 (cstr "") ∧
    CStrAt (layout [cstr "", cstr ""]) 1 (cstr "") ∧
    ¬ ((str_end_with (layout [cstr "", cstr ""]) 0 1).nonzero = true) := by
  decide

/-- C5 (amended): for every candidate string `s`, the empty one included, and
wherever the two strings lie in memory, `str_end_with(s, "")` returns 0. -/
theorem str_end_with_empty_suffix (mem : Mem) (sp tp : Nat) (s : CStr)
    (hs : CStrAt mem sp s) (ht : CStrAt mem tp (cstr "")) :
    str_end_with mem sp tp = StrOutcome.returned 0 := by
  have hmem := cstr_in_mem hs
  have ht' : CStrAt mem tp [] := ht
  have := str_end_with_loop_empty hs ht' s.length (2 * (mem.length - sp) + 4) 0
    (by omega) (by omega)
  simpa [str_end_with] using this

theorem str_end_with_empty_suffix_witness :
    CStrAt (layout [cstr "", cstr "video.gif"]) 1 (cstr "video.gif") ∧
    CStrAt (layout [cstr "", cstr "video.gif"]) 0 (cstr "") ∧
    str_end_with (layout [cstr "", cstr "video.gif"]) 1 0 = StrOutcome.returned 0 :=
  ⟨by decide, by decide,
    str_end_with_empty_suffix (layout [cstr "", cstr "video.gif"]) 1 0 (cstr "video.gif")
      (by decide) (by decide)⟩

/-- C6: on `s = "a"`, `t = "ab"` (a suffix longer than the candidate)
`str_end_with` does not return 0: after the inner loop stops on the terminator
of `s`, the outer `s++` steps over it and `*s` is read two bytes after the
start of `s`.  With `s` at address 3 that read is at address 5: a fault when the
memory ends behind the terminator of `s`, and the run goes on to return 1 when
the bytes of `"ab"` follow there. -/
theorem str_end_with_a_ab :
    (cstr "a").length < (cstr "ab").length ∧
    (CStrAt (layout [cstr "ab", cstr "a"]) 3 (cstr "a") ∧
      CStrAt (layout [cstr "ab", cstr "a"]) 0 (cstr "ab") ∧
      str_end_with (layout [cstr "ab", cstr "a"]) 3 0 ≠ StrOutcome.returned 0 ∧
      str_end_with (layout [cstr "ab", cstr "a"]) 3 0 = StrOutcome.readFaultS 5) ∧
    (CStrAt (layout [cstr "ab", cstr "a", cstr "ab"]) 3 (cstr "a") ∧
      CStrAt (layout [cstr "ab", cstr "a", cstr "ab"]) 0 (cstr "ab") ∧
      str_end_with (layout [cstr "ab", cstr "a", cstr "ab"]) 3 0 ≠ StrOutcome.returned 0 ∧
      str_end_with (layout [cstr "ab", cstr "a", cstr "ab"]) 3 0 = StrOutcome.returned 1) := by
  decide

/-- C8: `"ab"` is a trailing substring of `"aab"`, and
`str_end_with("aab", "ab")` returns 0; so does the suffix `"gif"` on
`"x.ggif"`. -/
theorem str_end_with_misses_overlap :
    cstr "ab" <:+ cstr "aab" ∧
    CStrAt (layout [cstr "ab", cstr "aab"]) 3 (cstr "aab") ∧
    CStrAt (layout [cstr "ab", cstr "aab"]) 0 (cstr "ab") ∧
    str_end_with (layout [cstr "ab", cstr "aab"]) 3 0 = StrOutcome.returned 0 ∧
    cstr "gif" <:+ cstr "x.ggif" ∧
    CStrAt (layout [cstr "gif", cstr "x.ggif"]) 4 (cstr "x.ggif") ∧
    CStrAt (layout [cstr "gif", cstr "x.ggif"]) 0 (cstr "gif") ∧
    str_end_with (layout [cstr "gif", cstr "x.ggif"]) 4 0 = StrOutcome.returned 0 := by
  decide

/-- C9: `str_end_with` reports a match that is no suffix.  With the literal
`"gif"` at address 0 and the arguments `"g"` and `"gif"` of the program behind
it (as `argv[1]` and `argv[2]` lie in memory), `str_end_with("g", "gif")`
returns 1, and `"gif"` is not a trailing substring of `"g"`: the scan has
stepped over the terminator of `"g"` and matched the bytes of the next string.
The same holds with `t` pointing at that next string. -/
theorem str_end_with_false_match :
    ¬ (cstr "gif" <:+ cstr "g") ∧
    (CStrAt (layout [cstr "gif", cstr "g", cstr "gif"]) 4 (cstr "g") ∧
      CStrAt (layout [cstr "gif", cstr "g", cstr "gif"]) 0 (cstr "gif") ∧
      str_end_with (layout [cstr "gif", cstr "g", cstr "gif"]) 4 0 = StrOutcome.returned 1 ∧
      (str_end_with (layout [cstr "gif", cstr "g", cstr "gif"]) 4 0).nonzero = true) ∧
    (CStrAt (layout [cstr "g", cstr "gif"]) 0 (cstr "g") ∧
      CStrAt (layout [cstr "g", cstr "gif"]) 2 (cstr "gif") ∧
      str_end_with (layout [cstr "g", cstr "gif"]) 0 2 = StrOutcome.returned 1) := by
  decide

/-- C10: there are NUL-terminated strings on which `str_end_with` reads `s`
at an address beyond the address of its terminator: for `s = "a"` at address 3
(terminator at address 4) and `t = "ab"` the run reads `*s` at address 5, where
in this memory nothing is mapped. -/
theorem str_end_with_reads_past_terminator :
    ∃ a : Nat, 3 + (cstr "a").length < a ∧
      CStrAt (layout [cstr "ab", cstr "a"]) 3 (cstr "a") ∧
      CStrAt (layout [cstr "ab", cstr "a"]) 0 (cstr "ab") ∧
      str_end_with (layout [cstr "ab", cstr "a"]) 3 0 = StrOutcome.readFaultS a :=
  ⟨5, by decide, by decide, by decide, by decide⟩

/-! ## The pattern generator -/

theorem forNat_succ {α : Type} (n : Nat) (body : Int → α → α) (init : α) :
    forNat (n + 1) body init = body (n : Int) (forNat n body init) := by
  simp [forNat, List.range_succ, List.foldl_append]

theorem forNat_zero {α : Type} (body : Int → α → α) (init : α) :
    forNat 0 body init = init := by
  simp [forNat]

/-- One row of stores: the bytes at `base + x`, `x < cols`, receive `v x`, the
others are kept. -/
theorem row_store (base : Int) (v : Int → Int) (m : Plane) :
    ∀ (cols : Nat) (j : Int),
      forNat cols (fun x m => Plane.store m (base + x) (v x)) m j =
        if 0 ≤ j - base ∧ j - base < cols then toSample (v (j - base)) else m j := by
  intro cols
  induction cols with
  | zero =>
    intro j
    rw [forNat_zero]
    have : ¬ (0 ≤ j - base ∧ j - base < ((0 : Nat) : Int)) := by
      simp only [Nat.cast_zero]; omega
    rw [if_neg this]
  | succ n ih =>
    intro j
    rw [forNat_succ]
    simp only [Plane.store]
    by_cases hj : j = base + (n : Int)
    · subst hj
      have hin : 0 ≤ base + (n : Int) - base ∧ base + (n : Int) - base < ((n + 1 : Nat) : Int) := by
        push_cast; omega
      rw [if_pos rfl, if_pos hin]
      congr 2
      omega
    · rw [if_neg hj, ih j]
      by_cases hin : 0 ≤ j - base ∧ j - base < (n : Int)
      · have hin2 : 0 ≤ j - base ∧ j - base < ((n + 1 : Nat) : Int) := by
          push_cast; omega
        rw [if_pos hin, if_pos hin2]
      · have hin2 : ¬ (0 ≤ j - base ∧ j - base < ((n + 1 : Nat) : Int)) := by
          push_cast; omega
        rw [if_neg hin, if_neg hin2]

/-- A plane filled row by row, with rows that do not overlap, holds at
`y * linesize + x` the sample of `val x y`. -/
theorem fillPlane_at (linesize : Int) (val : Int → Int → Int) (cols : Nat)
    (hls : (cols : Int) ≤ linesize) (m : Plane) :
    ∀ (rows : Nat) (x y : Nat), x < cols → y < rows →
      fillPlane linesize val rows cols m ((y : Int) * linesize + (x : Int)) =
        toSample (val x y) := by
  intro rows
  induction rows with
  | zero => intro x y _ hy; omega
  | succ n ih =>
    intro x y hx hy
    unfold fillPlane at ih ⊢
    rw [forNat_succ, row_store]
    by_cases hyn : y = n
    · subst hyn
      have hin : 0 ≤ (y : Int) * linesize + (x : Int) - (y : Int) * linesize ∧
          (y : Int) * linesize + (x : Int) - (y : Int) * linesize < (cols : Int) := by
        constructor <;> omega
      rw [if_pos hin]
      congr 2
      omega
    · have hlt : y < n := by omega
      have hmul : ((y : Int) + 1) * linesize ≤ (n : Int) * linesize := by
        apply mul_le_mul_of_nonneg_right
        · exact_mod_cast hlt
        · omega
      have hout : ¬ (0 ≤ (y : Int) * linesize + (x : Int) - (n : Int) * linesize ∧
          (y : Int) * linesize + (x : Int) - (n : Int) * linesize < (cols : Int)) := by
        intro h
        have h1 := h.1
        have hx' : (x : Int) < linesize := by omega
        nlinarith
      rw [if_neg hout]
      exact ih x y hx hlt

theorem luma_row (f y : Int) (fr : AVFrame) :
    ∀ cols : Nat,
      forNat cols (fun x (fr : AVFrame) =>
          { fr with data0 := fr.data0.store (y * fr.linesize0 + x) (x + y + f * 3) }) fr =
        { fr with data0 :=
            (forNat cols (fun x m => Plane.store m (y * fr.linesize0 + x) (x + y + f * 3))
              fr.data0) } := by
  intro cols
  induction cols with
  | zero => simp [forNat_zero]
  | succ n ih => rw [forNat_succ, forNat_succ, ih]

theorem fill_luma_eq (w h f : Int) (fr : AVFrame) :
    fill_luma w h f fr =
      { fr with data0 :=
          fillPlane fr.linesize0 (fun x y => x + y + f * 3) h.toNat w.toNat fr.data0 } := by
  unfold fill_luma forInt fillPlane
  generalize h.toNat = rows
  induction rows with
  | zero => simp [forNat_zero]
  | succ n ih => rw [forNat_succ, forNat_succ, ih, luma_row]

theorem chroma_row (f y : Int) (fr : AVFrame) :
    ∀ cols : Nat,
      forNat cols (fun x (fr : AVFrame) =>
          let fr1 : AVFrame :=
            { fr with data1 := fr.data1.store (y * fr.linesize1 + x) (128 + y + f * 2) }
          { fr1 with data2 := fr1.data2.store (y * fr1.linesize2 + x) (64 + x + f * 5) }) fr =
        { fr with
          data1 :=
            (forNat cols (fun x m => Plane.store m (y * fr.linesize1 + x) (128 + y + f * 2))
              fr.data1)
          data2 :=
            (forNat cols (fun x m => Plane.store m (y * fr.linesize2 + x) (64 + x + f * 5))
              fr.data2) } := by
  intro cols
  induction cols with
  | zero => simp [forNat_zero]
  | succ n ih => rw [forNat_succ, forNat_succ, forNat_succ, ih]

theorem fill_chroma_eq (w h f : Int) (fr : AVFrame) :
    fill_chroma w h f fr =
      { fr with
        data1 :=
          (fillPlane fr.linesize1 (fun _ y => 128 + y + f * 2) (Int.tdiv h 2).toNat
            (Int.tdiv w 2).toNat fr.data1)
        data2 :=
          (fillPlane fr.linesize2 (fun x _ => 64 + x + f * 5) (Int.tdiv h 2).toNat
            (Int.tdiv w 2).toNat fr.data2) } := by
  unfold fill_chroma forInt fillPlane
  generalize (Int.tdiv h 2).toNat = rows
  induction rows with
  | zero => simp [forNat_zero]
  | succ n ih => rw [forNat_succ, forNat_succ, forNat_succ, ih, chroma_row]

/-- The sample stored for an `int` value does not depend on whether the value
was computed in the integers or in a 32-bit `int` that wraps around. -/
theorem toSample_wrapInt (v : Int) : toSample (wrapInt v) = toSample v := by
  unfold toSample wrapInt
  congr 1
  omega

/-- The three sample expressions of the fill loops, evaluated with every
intermediate `int` result wrapped to 32 bits, store the same samples as the
expressions evaluated in the integers. -/
theorem samples_wrapInt (x y f : Int) :
    toSample (wrapInt (wrapInt (x + y) + wrapInt (f * 3))) = toSample (x + y + f * 3) ∧
    toSample (wrapInt (wrapInt (128 + y) + wrapInt (f * 2))) = toSample (128 + y + f * 2) ∧
    toSample (wrapInt (wrapInt (64 + x) + wrapInt (f * 5))) = toSample (64 + x + f * 5) := by
  unfold toSample wrapInt
  refine ⟨?_, ?_, ?_⟩ <;> congr 1 <;> omega

/-- C1 (pattern generator): after the fill loops of `create_video_frame` have
run with frame counter `f` on a frame whose line sizes are at least the plane
widths, the luma byte of every `(x, y)` with `0 ≤ x < w`, `0 ≤ y < h` is
`(x + y + 3 f) mod 256`, and for every `(x, y)` with `0 ≤ x < w / 2`,
`0 ≤ y < h / 2` the first chroma byte is `(128 + y + 2 f) mod 256` and the
second is `(64 + x + 5 f) mod 256`. -/
theorem fill_frame_samples (w h f : Int) (fr : AVFrame)
    (h0 : w ≤ fr.linesize0) (h1 : Int.tdiv w 2 ≤ fr.linesize1)
    (h2 : Int.tdiv w 2 ≤ fr.linesize2) :
    (∀ x y : Int, 0 ≤ x → x < w → 0 ≤ y → y < h →
      (fill_frame w h f fr).data0 (y * fr.linesize0 + x) = ((x + y + 3 * f) % 256).toNat) ∧
    (∀ x y : Int, 0 ≤ x → x < Int.tdiv w 2 → 0 ≤ y → y < Int.tdiv h 2 →
      (fill_frame w h f fr).data1 (y * fr.linesize1 + x) = ((128 + y + 2 * f) % 256).toNat ∧
      (fill_frame w h f fr).data2 (y * fr.linesize2 + x) = ((64 + x + 5 * f) % 256).toNat) := by
  unfold fill_frame
  rw [fill_chroma_eq, fill_luma_eq]
  refine ⟨?_, ?_⟩
  · intro x y hx0 hxw hy0 hyh
    have hx : (x.toNat : Int) = x := Int.toNat_of_nonneg hx0
    have hy : (y.toNat : Int) = y := Int.toNat_of_nonneg hy0
    have key := fillPlane_at fr.linesize0 (fun x y => x + y + f * 3) w.toNat (by omega)
      fr.data0 h.toNat x.toNat y.toNat (by omega) (by omega)
    rw [hx, hy] at key
    simp only at key ⊢
    rw [key]
    unfold toSample
    congr 2
    omega
  · intro x y hx0 hxw hy0 hyh
    have hx : (x.toNat : Int) = x := Int.toNat_of_nonneg hx0
    have hy : (y.toNat : Int) = y := Int.toNat_of_nonneg hy0
    have key1 := fillPlane_at fr.linesize1 (fun _ y => 128 + y + f * 2) (Int.tdiv w 2).toNat
      (by omega) fr.data1 (Int.tdiv h 2).toNat x.toNat y.toNat (by omega) (by omega)
    have key2 := fillPlane_at fr.linesize2 (fun x _ => 64 + x + f * 5) (Int.tdiv w 2).toNat
      (by omega) fr.data2 (Int.tdiv h 2).toNat x.toNat y.toNat (by omega) (by omega)
    rw [hx, hy] at key1 key2
    simp only at key1 key2 ⊢
    rw [key1, key2]
    unfold toSample
    constructor
    · congr 2
      omega
    · congr 2
      omega

/-! ## The session driver -/

theorem writtenPackets_append {π : Type} (l1 l2 : List (Event π)) :
    writtenPackets (l1 ++ l2) = writtenPackets l1 ++ writtenPackets l2 := by
  induction l1 with
  | nil => rfl
  | cons e l ih => cases e <;> simp [writtenPackets, ih]

theorem receivedPackets_append {π : Type} (l1 l2 : List (Event π)) :
    receivedPackets (l1 ++ l2) = receivedPackets l1 ++ receivedPackets l2 := by
  induction l1 with
  | nil => rfl
  | cons e l ih =>
    cases e with
    | receive ret pkt =>
      by_cases h : ret ≥ 0 <;> simp [receivedPackets, ih, h]
    | writable _ => simp [receivedPackets, ih]
    | send _ _ => simp [receivedPackets, ih]
    | write _ _ => simp [receivedPackets, ih]

/-- The drain loop, from any state: what it adds to the record is an ordered
drain, and the packets written are the packets received. -/
theorem drain_events {σ π : Type} (L : AVLib σ π) (hA : L.AVERROR_EAGAIN < 0)
    (hE : L.AVERROR_EOF < 0) :
    ∀ (fuel : Nat) (ret : Int) (pkt : π) (g : Globals σ π),
      ∃ evs, (drain L fuel ret pkt g).state.log = g.log ++ evs ∧ OrderedDrain evs ∧
        writtenPackets evs = receivedPackets evs := by
  intro fuel
  induction fuel with
  | zero =>
    intro ret pkt g
    exact ⟨[], by simp [drain, Outcome.state], trivial, rfl⟩
  | succ n ih =>
    intro ret pkt g
    simp only [drain, write_video_frame]
    generalize L.avcodec_receive_packet g.lib pkt = r
    generalize hw : L.av_interleaved_write_frame r.2.2
      (L.set_stream_index (L.av_packet_rescale_ts r.2.1) g.stream_index) = w
    by_cases hret : ret ≥ 0
    · simp only [hret, if_true]
      by_cases hstop : r.1 = L.AVERROR_EAGAIN ∨ r.1 = L.AVERROR_EOF
      · have hneg : r.1 < 0 := by
          rcases hstop with h | h <;> rw [h] <;> assumption
        have hnot : ¬ r.1 ≥ 0 := by omega
        simp only [hstop, if_true, Outcome.state]
        exact ⟨[Event.receive r.1 r.2.1], rfl, by simpa [OrderedDrain] using hneg,
          by simp [writtenPackets, receivedPackets, hnot]⟩
      · simp only [hstop, if_false]
        by_cases hneg : r.1 < 0
        · have hnot : ¬ r.1 ≥ 0 := by omega
          simp only [hneg, if_true, Outcome.state]
          exact ⟨[Event.receive r.1 r.2.1], rfl, by simpa [OrderedDrain] using hneg,
            by simp [writtenPackets, receivedPackets, hnot]⟩
        · simp only [hneg, if_false]
          have hpos : r.1 ≥ 0 := by omega
          by_cases hwneg : w.1 < 0
          · simp only [hwneg, if_true, Outcome.state]
            refine ⟨[Event.receive r.1 r.2.1, Event.write r.2.1 w.1], by simp, ?_, ?_⟩
            · simp [OrderedDrain, hpos]
            · simp [writtenPackets, receivedPackets, hpos]
          · simp only [hwneg, if_false]
            obtain ⟨evs, hlog, hord, hwr⟩ := ih w.1 (L.av_packet_unref w.2.1)
              { g with lib := w.2.2,
                       log := g.log ++ [Event.receive r.1 r.2.1] ++ [Event.write r.2.1 w.1] }
            refine ⟨Event.receive r.1 r.2.1 :: Event.write r.2.1 w.1 :: evs, ?_, ?_, ?_⟩
            · rw [hlog]
              simp
            · have hw0 : 0 ≤ w.1 := by omega
              simp [OrderedDrain, hpos, hw0, hord]
            · simp [writtenPackets, receivedPackets, hpos, hwr]
    · simp only [hret, if_false, Outcome.state]
      exact ⟨[], by simp, trivial, rfl⟩

/-- The frame counter is not changed by the drain loop entered with
`ret ≥ 0`: the statement `frame_count++` behind the loop is never reached. -/
theorem drain_frame_count {σ π : Type} (L : AVLib σ π) :
    ∀ (fuel : Nat) (ret : Int) (pkt : π) (g : Globals σ π), 0 ≤ ret →
      (drain L fuel ret pkt g).state.frame_count = g.frame_count := by
  intro fuel
  induction fuel with
  | zero => intro ret pkt g _; rfl
  | succ n ih =>
    intro ret pkt g hret
    simp only [drain, write_video_frame]
    generalize L.avcodec_receive_packet g.lib pkt = r
    generalize hw : L.av_interleaved_write_frame r.2.2
      (L.set_stream_index (L.av_packet_rescale_ts r.2.1) g.stream_index) = w
    have hret' : ret ≥ 0 := hret
    simp only [hret', if_true]
    split_ifs with h1 h2 h3
    all_goals first
      | rfl
      | exact ih _ _ _ (by omega)

/-- A call of `create_video_frame` leaves `frame_count` as it found it,
whatever the collaborator does and however the call ends. -/
theorem create_video_frame_frame_count {σ π : Type} (L : AVLib σ π) (fuel : Nat)
    (g : Globals σ π) :
    (create_video_frame L fuel g).state.frame_count = g.frame_count := by
  simp only [create_video_frame]
  split_ifs with h1 h2
  · rfl
  · rfl
  · rw [drain_frame_count L fuel _ _ _ (by omega)]

/-- The drain loop does not touch `video_frame`. -/
theorem drain_video_frame {σ π : Type} (L : AVLib σ π) :
    ∀ (fuel : Nat) (ret : Int) (pkt : π) (g : Globals σ π),
      (drain L fuel ret pkt g).state.video_frame = g.video_frame := by
  intro fuel
  induction fuel with
  | zero => intro ret pkt g; rfl
  | succ n ih =>
    intro ret pkt g
    simp only [drain, write_video_frame]
    generalize L.avcodec_receive_packet g.lib pkt = r
    generalize hw : L.av_interleaved_write_frame r.2.2
      (L.set_stream_index (L.av_packet_rescale_ts r.2.1) g.stream_index) = w
    split_ifs with h0 h1 h2 h3
    all_goals first
      | rfl
      | exact ih _ _ _

/-- The drain loop is cut off by the step budget only after the collaborator has
delivered, and the loop has written, one packet for each unit of the budget: a
drain in which some receive does not deliver a packet returns. -/
theorem drain_outOfFuel {σ π : Type} (L : AVLib σ π) :
    ∀ (fuel : Nat) (ret : Int) (pkt : π) (g g1 : Globals σ π),
      drain L fuel ret pkt g = Outcome.outOfFuel g1 →
      ∃ evs, g1.log = g.log ++ evs ∧ (writtenPackets evs).length = fuel := by
  intro fuel
  induction fuel with
  | zero =>
    intro ret pkt g g1 h
    simp only [drain, Outcome.outOfFuel.injEq] at h
    subst h
    exact ⟨[], by simp, rfl⟩
  | succ n ih =>
    intro ret pkt g g1 h
    simp only [drain, write_video_frame] at h
    generalize L.avcodec_receive_packet g.lib pkt = r at h
    generalize hw : L.av_interleaved_write_frame r.2.2
      (L.set_stream_index (L.av_packet_rescale_ts r.2.1) g.stream_index) = w at h
    split_ifs at h with h0 h1 h2 h3
    obtain ⟨evs, hlog, hlen⟩ := ih _ _ _ _ h
    refine ⟨Event.receive r.1 r.2.1 :: Event.write r.2.1 w.1 :: evs, ?_, ?_⟩
    · rw [hlog]
      simp
    · simp [writtenPackets, hlen]

/-- A call of `create_video_frame` that gets past `av_frame_make_writable`
leaves in `video_frame->pts` the value `frame_count` had when it was called. -/
theorem create_video_frame_pts {σ π : Type} (L : AVLib σ π) (fuel : Nat)
    (g : Globals σ π) (v : Int) (g1 : Globals σ π)
    (h : create_video_frame L fuel g = Outcome.returned v g1) :
    g1.video_frame.pts = g.frame_count := by
  have hs : (create_video_frame L fuel g).state = g1 := by rw [h]; rfl
  rw [← hs]
  simp only [create_video_frame] at h ⊢
  split_ifs at h ⊢ with h1 h2
  · rfl
  · rw [drain_video_frame]

/-- In the frame loop of `main`, every call of `create_video_frame` that
returns has assigned the same presentation timestamp: the value of `frame_count`
at the start of the loop. -/
theorem frame_loop_pts {σ π : Type} (L : AVLib σ π) (fuel : Nat) :
    ∀ (n : Nat) (g : Globals σ π) (e : Option Int × Int),
      e ∈ frame_loop L fuel n g → e.1 ≠ none → e.2 = g.frame_count := by
  intro n
  induction n with
  | zero => intro g e he; simp [frame_loop] at he
  | succ k ih =>
    intro g e he hne
    simp only [frame_loop] at he
    cases hc : create_video_frame L fuel g with
    | returned v g1 =>
      rw [hc] at he
      have hpts := create_video_frame_pts L fuel g v g1 hc
      have hfc : g1.frame_count = g.frame_count := by
        have := create_video_frame_frame_count L fuel g
        rw [hc] at this
        exact this
      rcases List.mem_cons.mp he with h | h
      · rw [h]; exact hpts
      · by_cases hv : v ≠ 0
        · rw [if_pos hv] at h
          rw [ih g1 e h hne, hfc]
        · rw [if_neg hv] at h
          simp at h
    | exited c g1 =>
      rw [hc] at he
      simp only [List.mem_singleton] at he
      rw [he] at hne
      exact absurd rfl hne
    | outOfFuel g1 =>
      rw [hc] at he
      simp only [List.mem_singleton] at he
      rw [he] at hne
      exact absurd rfl hne

/-- When the receive that ends the drain answers `AVERROR(EAGAIN)`, the drain
loop returns 0. -/
theorem drain_eagain {σ π : Type} (L : AVLib σ π) (fuel : Nat) (ret : Int) (pkt : π)
    (g : Globals σ π) (hret : 0 ≤ ret)
    (hrecv : (L.avcodec_receive_packet g.lib pkt).1 = L.AVERROR_EAGAIN) :
    (drain L (fuel + 1) ret pkt g).retval = some 0 := by
  have hret' : ret ≥ 0 := hret
  simp [drain, hret', hrecv, Outcome.retval]

/-- In one call of `create_video_frame`, against any collaborator and for any
number of loop iterations, each successful receive is directly followed by the
write of the packet it returned, and nothing follows a failed receive or a
failed write. -/
theorem create_video_frame_record_ordered {σ π : Type} (L : AVLib σ π)
    (hA : L.AVERROR_EAGAIN < 0) (hE : L.AVERROR_EOF < 0) (fuel : Nat) (g : Globals σ π) :
    ∃ evs, (create_video_frame L fuel g).state.log = g.log ++ evs ∧ OrderedDrain evs ∧
      writtenPackets evs = receivedPackets evs := by
  simp only [create_video_frame]
  generalize L.av_frame_make_writable g.lib g.video_frame = m
  generalize fill_frame g.width g.height g.frame_count m.2.1 = ff
  generalize L.avcodec_send_frame m.2.2 (AVFrame.mk ff.data0 ff.data1 ff.data2 ff.linesize0
    ff.linesize1 ff.linesize2 g.frame_count) = sr
  split_ifs with h1 h2
  · exact ⟨[Event.writable m.1], rfl, trivial, rfl⟩
  · exact ⟨[Event.writable m.1, Event.send g.frame_count sr.1], by simp [Outcome.state],
      trivial, rfl⟩
  · obtain ⟨evs, hlog, hord, hwr⟩ := drain_events L hA hE fuel sr.1 L.av_init_packet
      (Globals.mk sr.2 (AVFrame.mk ff.data0 ff.data1 ff.data2 ff.linesize0 ff.linesize1
        ff.linesize2 g.frame_count) g.frame_count g.width g.height g.stream_index
        (g.log ++ [Event.writable m.1] ++ [Event.send g.frame_count sr.1]))
    refine ⟨Event.writable m.1 :: Event.send g.frame_count sr.1 :: evs, ?_, ?_, ?_⟩
    · rw [hlog]
      simp
    · simpa [OrderedDrain] using hord
    · simpa [writtenPackets, receivedPackets] using hwr

theorem fill_frame_samples_witness :
    (4 : Int) ≤ (blankFrame 4 2 2).linesize0 ∧
    Int.tdiv 4 2 ≤ (blankFrame 4 2 2).linesize1 ∧
    Int.tdiv 4 2 ≤ (blankFrame 4 2 2).linesize2 ∧
    ((∀ x y : Int, 0 ≤ x → x < 4 → 0 ≤ y → y < 2 →
      (fill_frame 4 2 1 (blankFrame 4 2 2)).data0 (y * (blankFrame 4 2 2).linesize0 + x) =
        ((x + y + 3 * 1) % 256).toNat) ∧
     (∀ x y : Int, 0 ≤ x → x < Int.tdiv 4 2 → 0 ≤ y → y < Int.tdiv 2 2 →
      (fill_frame 4 2 1 (blankFrame 4 2 2)).data1 (y * (blankFrame 4 2 2).linesize1 + x) =
        ((128 + y + 2 * 1) % 256).toNat ∧
      (fill_frame 4 2 1 (blankFrame 4 2 2)).data2 (y * (blankFrame 4 2 2).linesize2 + x) =
        ((64 + x + 5 * 1) % 256).toNat)) :=
  ⟨by decide, by decide, by decide,
    fill_frame_samples 4 2 1 (blankFrame 4 2 2) (by decide) (by decide) (by decide)⟩

/-- The luma row 1 and the chroma samples of a 4 by 2 frame with counter 85,
evaluated: the sums pass 255 and wrap. -/
theorem fill_frame_example :
    (List.range 4).map (fun x => (fill_frame 4 2 85 (blankFrame 4 2 2)).data0 (1 * 4 + x)) =
      [0, 1, 2, 3] ∧
    (List.range 2).map (fun x => (fill_frame 4 2 85 (blankFrame 4 2 2)).data1 (0 * 2 + x)) =
      [42, 42] ∧
    (List.range 2).map (fun x => (fill_frame 4 2 85 (blankFrame 4 2 2)).data2 (0 * 2 + x)) =
      [233, 234] := by
  decide

/-- A drain over the scripted collaborator, evaluated: two packets are received
and written in order before the encoder asks for more input. -/
theorem create_video_frame_drain_example :
    writtenPackets (create_video_frame scripted 5
      (scriptedStart ⟨[0], [(0, 7), (0, 8), (-11, 0)], [0, 0]⟩)).state.log = [7, 8] ∧
    receivedPackets (create_video_frame scripted 5
      (scriptedStart ⟨[0], [(0, 7), (0, 8), (-11, 0)], [0, 0]⟩)).state.log = [7, 8] := by
  decide

/-- C3: from the state `create_video_file` leaves, two consecutive calls of
`create_video_frame` that both return 1 (the encoder answers `AVERROR_EOF` to
each receive) both assign the presentation timestamp 0, and `frame_count` is
still 0 afterwards: the timestamps are `0, 0`, not `0, 1`. -/
theorem frame_loop_repeats_pts :
    frame_loop scripted 4 2
      (scriptedStart ⟨[0, 0], [(-541478725, 0), (-541478725, 0)], []⟩) =
        [(some 1, 0), (some 1, 0)] ∧
    sentPts (create_video_frame scripted 4 (create_video_frame scripted 4
      (scriptedStart ⟨[0, 0], [(-541478725, 0), (-541478725, 0)], []⟩)).state).state.log =
        [0, 0] ∧
    (create_video_frame scripted 4 (create_video_frame scripted 4
      (scriptedStart ⟨[0, 0], [(-541478725, 0), (-541478725, 0)], []⟩)).state).state.frame_count
        = 0 := by
  decide

/-- C4: a call of `create_video_frame` in which the send succeeds and the
drain ends on `AVERROR(EAGAIN)` returns 0, with no packet before the end of the
drain and also after one packet that was received and written successfully;
the frame loop of `main` stops there. -/
theorem create_video_frame_eagain_returns_zero :
    (create_video_frame scripted 4 (scriptedStart ⟨[0], [(-11, 0)], []⟩)).retval = some 0 ∧
    (create_video_frame scripted 4 (scriptedStart ⟨[0], [(0, 7), (-11, 0)], [0]⟩)).retval
      = some 0 ∧
    writtenPackets (create_video_frame scripted 4
      (scriptedStart ⟨[0], [(0, 7), (-11, 0)], [0]⟩)).state.log = [7] ∧
    frame_loop scripted 4 25 (scriptedStart ⟨[0], [(0, 7), (-11, 0)], [0]⟩) = [(some 0, 0)] := by
  decide

theorem firstPackets_succ {π : Type} (receives : Nat → Int × π) (k : Nat) :
    firstPackets receives (k + 1) =
      (receives 0).2 :: firstPackets (fun i => receives (i + 1)) k := by
  simp [firstPackets, List.range_succ_eq_map, List.map_map, Function.comp_def]

/-- The drain loop against answers given as sequences, when the first `n`
rounds (a receive and the write of its packet) succeed. -/
theorem drain_sequenced {π : Type} (eagain eof : Int) (hA : eagain < 0) (hE : eof < 0)
    (blank : π) :
    ∀ (n fuel : Nat) (ret : Int) (pkt : π) (g : Globals (Answers π) π), 0 ≤ ret →
      (∀ i, i < n → 0 ≤ (g.lib.receives i).1 ∧ 0 ≤ g.lib.writes i) →
      ((g.lib.receives n).1 < 0 → n < fuel →
        (drain (sequenced eagain eof blank) fuel ret pkt g).retval.isSome = true ∧
        writtenPackets (drain (sequenced eagain eof blank) fuel ret pkt g).state.log =
          writtenPackets g.log ++ firstPackets g.lib.receives n ∧
        receivedPackets (drain (sequenced eagain eof blank) fuel ret pkt g).state.log =
          receivedPackets g.log ++ firstPackets g.lib.receives n) ∧
      (0 ≤ (g.lib.receives n).1 → g.lib.writes n < 0 → n < fuel →
        (drain (sequenced eagain eof blank) fuel ret pkt g).retval.isSome = true ∧
        writtenPackets (drain (sequenced eagain eof blank) fuel ret pkt g).state.log =
          writtenPackets g.log ++ firstPackets g.lib.receives (n + 1) ∧
        receivedPackets (drain (sequenced eagain eof blank) fuel ret pkt g).state.log =
          receivedPackets g.log ++ firstPackets g.lib.receives (n + 1)) ∧
      (fuel = n →
        (drain (sequenced eagain eof blank) fuel ret pkt g).retval = none ∧
        writtenPackets (drain (sequenced eagain eof blank) fuel ret pkt g).state.log =
          writtenPackets g.log ++ firstPackets g.lib.receives n ∧
        receivedPackets (drain (sequenced eagain eof blank) fuel ret pkt g).state.log =
          receivedPackets g.log ++ firstPackets g.lib.receives n) := by
  intro n
  induction n with
  | zero =>
    intro fuel ret pkt g hret _
    have hret' : ret ≥ 0 := hret
    refine ⟨?_, ?_, ?_⟩
    · intro hfail hfuel
      obtain ⟨f, rfl⟩ : ∃ f, fuel = f + 1 := ⟨fuel - 1, by omega⟩
      have hnot : ¬ (g.lib.receives 0).1 ≥ 0 := by omega
      have hnot' : ¬ 0 ≤ (g.lib.receives 0).1 := by omega
      simp only [drain, sequenced, hret', if_true, hfail]
      split_ifs <;>
        simp [Outcome.retval, Outcome.state, writtenPackets_append, receivedPackets_append,
          writtenPackets, receivedPackets, firstPackets, hnot]
    · intro hok hfail hfuel
      obtain ⟨f, rfl⟩ : ∃ f, fuel = f + 1 := ⟨fuel - 1, by omega⟩
      have hok' : (g.lib.receives 0).1 ≥ 0 := hok
      have h1 : ¬ ((g.lib.receives 0).1 = eagain ∨ (g.lib.receives 0).1 = eof) := by omega
      have h2 : ¬ (g.lib.receives 0).1 < 0 := by omega
      simp [drain, write_video_frame, sequenced, hret', h1, h2, hfail, hok, hok',
        Outcome.retval, Outcome.state, writtenPackets_append, receivedPackets_append,
        writtenPackets, receivedPackets, firstPackets, List.range_succ]
    · intro hfuel
      subst hfuel
      simp [drain, Outcome.retval, Outcome.state, firstPackets]
  | succ n ih =>
    intro fuel ret pkt g hret hrounds
    have hret' : ret ≥ 0 := hret
    obtain ⟨hr0, hw0⟩ := hrounds 0 (by omega)
    have hr0' : (g.lib.receives 0).1 ≥ 0 := hr0
    have h1 : ¬ ((g.lib.receives 0).1 = eagain ∨ (g.lib.receives 0).1 = eof) := by omega
    have h2 : ¬ (g.lib.receives 0).1 < 0 := by omega
    have h3 : ¬ g.lib.writes 0 < 0 := by omega
    let g1 : Globals (Answers π) π :=
      { g with
        lib := { g.lib with receives := fun i => g.lib.receives (i + 1),
                            writes := fun i => g.lib.writes (i + 1) },
        log := g.log ++ [Event.receive (g.lib.receives 0).1 (g.lib.receives 0).2] ++
          [Event.write (g.lib.receives 0).2 (g.lib.writes 0)] }
    have step : ∀ f : Nat,
        drain (sequenced eagain eof blank) (f + 1) ret pkt g =
          drain (sequenced eagain eof blank) f (g.lib.writes 0) blank g1 := by
      intro f
      simp [g1, drain, write_video_frame, sequenced, hret', h1, h2, h3, hr0, hr0']
    have hlogW : writtenPackets g1.log = writtenPackets g.log ++ [(g.lib.receives 0).2] := by
      simp [g1, writtenPackets_append, writtenPackets]
    have hlogR : receivedPackets g1.log =
        receivedPackets g.log ++ [(g.lib.receives 0).2] := by
      simp [g1, receivedPackets_append, receivedPackets, hr0']
    have hshift : ∀ i, i < n → 0 ≤ (g1.lib.receives i).1 ∧ 0 ≤ g1.lib.writes i :=
      fun i hi => hrounds (i + 1) (by omega)
    have hfp : ∀ k, firstPackets g.lib.receives (k + 1) =
        (g.lib.receives 0).2 :: firstPackets g1.lib.receives k :=
      fun k => firstPackets_succ g.lib.receives k
    refine ⟨?_, ?_, ?_⟩
    · intro hfail hfuel
      obtain ⟨f, rfl⟩ : ∃ f, fuel = f + 1 := ⟨fuel - 1, by omega⟩
      rw [step f]
      obtain ⟨a, b, c⟩ := (ih f (g.lib.writes 0) blank g1 hw0 hshift).1 hfail (by omega)
      refine ⟨a, ?_, ?_⟩
      · rw [b, hlogW, hfp]; simp
      · rw [c, hlogR, hfp]; simp
    · intro hok hfail hfuel
      obtain ⟨f, rfl⟩ : ∃ f, fuel = f + 1 := ⟨fuel - 1, by omega⟩
      rw [step f]
      obtain ⟨a, b, c⟩ := (ih f (g.lib.writes 0) blank g1 hw0 hshift).2.1 hok hfail (by omega)
      refine ⟨a, ?_, ?_⟩
      · rw [b, hlogW, hfp]; simp
      · rw [c, hlogR, hfp]; simp
    · intro hfuel
      subst hfuel
      rw [step n]
      obtain ⟨a, b, c⟩ := (ih n (g.lib.writes 0) blank g1 hw0 hshift).2.2 rfl
      refine ⟨a, ?_, ?_⟩
      · rw [b, hlogW, hfp]; simp
      · rw [c, hlogR, hfp]; simp

/-- C7 (ordered drain): in one call of `create_video_frame`, for every sequence
of answers of the encoder and of the writer (the error values of the library
being negative), the packets handed to `write_video_frame` are exactly the
packets the successful receives returned, in the same order, up to the first
receive that does not succeed or the first write that fails.  If the first `n`
rounds succeed and receive `n` answers `AVERROR(EAGAIN)`, `AVERROR_EOF` or an
error, the call returns having received and written the first `n` packets; if
receive `n` succeeds and write `n` fails, it returns having received and
written the first `n + 1` packets; and a drain cut off after `n` successful
rounds has received and written the first `n` packets. -/
theorem create_video_frame_drain_exact {π : Type} (eagain eof : Int) (hA : eagain < 0)
    (hE : eof < 0) (blank : π) (g : Globals (Answers π) π) (hsend : 0 ≤ g.lib.send)
    (n : Nat) (hrounds : ∀ i, i < n → 0 ≤ (g.lib.receives i).1 ∧ 0 ≤ g.lib.writes i)
    (fuel : Nat) :
    ((g.lib.receives n).1 < 0 → n < fuel →
      (create_video_frame (sequenced eagain eof blank) fuel g).retval.isSome = true ∧
      writtenPackets (create_video_frame (sequenced eagain eof blank) fuel g).state.log =
        writtenPackets g.log ++ firstPackets g.lib.receives n ∧
      receivedPackets (create_video_frame (sequenced eagain eof blank) fuel g).state.log =
        receivedPackets g.log ++ firstPackets g.lib.receives n) ∧
    (0 ≤ (g.lib.receives n).1 → g.lib.writes n < 0 → n < fuel →
      (create_video_frame (sequenced eagain eof blank) fuel g).retval.isSome = true ∧
      writtenPackets (create_video_frame (sequenced eagain eof blank) fuel g).state.log =
        writtenPackets g.log ++ firstPackets g.lib.receives (n + 1) ∧
      receivedPackets (create_video_frame (sequenced eagain eof blank) fuel g).state.log =
        receivedPackets g.log ++ firstPackets g.lib.receives (n + 1)) ∧
    (fuel = n →
      (create_video_frame (sequenced eagain eof blank) fuel g).retval = none ∧
      writtenPackets (create_video_frame (sequenced eagain eof blank) fuel g).state.log =
        writtenPackets g.log ++ firstPackets g.lib.receives n ∧
      receivedPackets (create_video_frame (sequenced eagain eof blank) fuel g).state.log =
        receivedPackets g.log ++ firstPackets g.lib.receives n) := by
  let g3 : Globals (Answers π) π :=
    { g with
      video_frame :=
        { fill_frame g.width g.height g.frame_count g.video_frame with pts := g.frame_count },
      log := g.log ++ [Event.writable 0] ++ [Event.send g.frame_count g.lib.send] }
  have hsend' : ¬ g.lib.send < 0 := by omega
  have hcall : create_video_frame (sequenced eagain eof blank) fuel g =
      drain (sequenced eagain eof blank) fuel g.lib.send blank g3 := by
    simp [g3, create_video_frame, sequenced, hsend']
  have hW : writtenPackets g3.log = writtenPackets g.log := by
    simp [g3, writtenPackets_append, writtenPackets]
  have hR : receivedPackets g3.log = receivedPackets g.log := by
    simp [g3, receivedPackets_append, receivedPackets]
  have key := drain_sequenced eagain eof hA hE blank n fuel g.lib.send blank g3 hsend hrounds
  rw [hcall, ← hW, ← hR]
  exact key

theorem create_video_frame_drain_exact_witness :
    (-11 : Int) < 0 ∧ (-541478725 : Int) < 0 ∧ 0 ≤ sequencedStart.lib.send ∧
    (∀ i, i < 2 → 0 ≤ (sequencedStart.lib.receives i).1 ∧ 0 ≤ sequencedStart.lib.writes i) ∧
    (sequencedStart.lib.receives 2).1 < 0 ∧ 2 < 5 ∧
    ((create_video_frame (sequenced (-11) (-541478725) 0) 5 sequencedStart).retval.isSome
        = true ∧
      writtenPackets
          (create_video_frame (sequenced (-11) (-541478725) 0) 5 sequencedStart).state.log =
        writtenPackets sequencedStart.log ++ firstPackets sequencedStart.lib.receives 2 ∧
      receivedPackets
          (create_video_frame (sequenced (-11) (-541478725) 0) 5 sequencedStart).state.log =
        receivedPackets sequencedStart.log ++ firstPackets sequencedStart.lib.receives 2) ∧
    writtenPackets sequencedStart.log ++ firstPackets sequencedStart.lib.receives 2 = [7, 8] :=
  ⟨by decide, by decide, by decide, by decide, by decide, by decide,
    (create_video_frame_drain_exact (-11) (-541478725) (by decide) (by decide) 0 sequencedStart
      (by decide) 2 (by decide) 5).1 (by decide) (by decide),
    by decide⟩

/-- The session of `sequencedStart`, evaluated: the call returns, and the
packets received and the packets written are 7, 8, in this order; when the
write of packet 7 fails instead, the call returns with only packet 7 handed
to the writer. -/
theorem create_video_frame_sequenced_example :
    (sequencedStart.lib.receives 2).1 < 0 ∧
    (create_video_frame (sequenced (-11) (-541478725) 0) 5 sequencedStart).retval = some 0 ∧
    writtenPackets
      (create_video_frame (sequenced (-11) (-541478725) 0) 5 sequencedStart).state.log
        = [7, 8] ∧
    receivedPackets
      (create_video_frame (sequenced (-11) (-541478725) 0) 5 sequencedStart).state.log
        = [7, 8] ∧
    writtenPackets
      (create_video_frame (sequenced (-11) (-541478725) 0) 5
        { sequencedStart with
          lib := { sequencedStart.lib with writes := fun _ => -1 } }).state.log = [7] := by
  decide

end OutputExample
